import Mathlib

/-!
Verification of the laddered futures trading bot against its natural-language
specification.  Numeric computations of the JavaScript source are embedded
over `ℚ` (exact arithmetic); stateful components are embedded as explicit
state-passing functions; fallible operations return `Option` / `Except`.

Source files referenced throughout:
* `src/services/backpackFuturesService.js` — `executeWithRetry`
* `src/core/futuresTradingStrategy.js` — `calculateShortOrders`,
  `calculateFuturesOrders`, `calculateDynamicStopLoss`,
  `calculateProfitPercentage`
* `src/network/webSocketManager.js` — `processMessage`, `handleReconnect`,
  `resetConnectionState`, the per-connection open/message/error/close handlers
* `src/app.js` (`PriceMonitor`) — `handleWebSocketPriceUpdate`,
  `handlePriceUpdate`
* the futures trading controller (`FuturesTradingApp`) — `getPositionInfo`,
  `executeTrade`, the monitoring-interval body of `startTakeProfitMonitoring`
-/

/-! ## RetryExecutor: `executeWithRetry` (backpackFuturesService.js 129-144)

The JS loop is
`for (let attempt = 0; attempt < maxRetries; attempt++) { try { return await
apiCall(); } catch (e) { lastError = e; if (attempt < maxRetries - 1) wait
(2^attempt * 500); } } throw lastError;`.
We embed it with the operation given as a map from attempt index to an
`Except` outcome, recording the result, the number of invocations and the
backoff delays.  A `maxRetries ≤ 0` call never enters the loop and throws the
uninitialised `lastError` (JS `undefined`), embedded as `Except.error none`. -/

structure RetryTrace (ε α : Type) where
  result : Except (Option ε) α
  calls : ℕ
  waits : List ℕ

/-- One pass of the retry loop: `attempt` is the current loop index, the `ℕ`
argument is the number of loop iterations still permitted
(`maxRetries - attempt`), and the `Option ε` is the JS `lastError` variable. -/
def retryLoop (op : ℕ → Except ε α) (attempt : ℕ) : ℕ → Option ε → RetryTrace ε α
  | 0, lastError => ⟨Except.error lastError, 0, []⟩
  | remaining + 1, _ =>
    match op attempt with
    | Except.ok a => ⟨Except.ok a, 1, []⟩
    | Except.error e =>
      let rest := retryLoop op (attempt + 1) remaining (some e)
      ⟨rest.result, rest.calls + 1,
        (if 0 < remaining then [2 ^ attempt * 500] else []) ++ rest.waits⟩

/-- Embedding of `executeWithRetry(apiCall, maxRetries)`.  The loop runs
`max maxRetries 0` times; the wait guard `attempt < maxRetries - 1` is exactly
`0 < remaining` after consuming the current iteration. -/
def executeWithRetry (op : ℕ → Except ε α) (maxRetries : ℤ) : RetryTrace ε α :=
  retryLoop op 0 maxRetries.toNat none

/-! ## OrderLadderPlanner: `calculateShortOrders` and the price grid
(futuresTradingStrategy.js 34-186)

`Formatter.adjustPriceToTickSize` and `Formatter.adjustQuantityToStepSize`
live in `src/utils/formatter.js`, which is not among the sources. -/

/-- Modelled from the spec: `Formatter.adjustQuantityToStepSize` is missing
from the sources; spec §4.4 says the per-rung quantity is
"rounded to the venue's quantity step".  It is modelled as rounding down to a
multiple of the step (the sum bound the spec asserts requires that the
rounding never increase a rung's amount). -/
def adjustQuantityToStepSize (q step : ℚ) : ℚ :=
  ⌊q / step⌋ * step

/-- Modelled from the spec: `Formatter.adjustPriceToTickSize` is missing from
the sources; it is modelled as rounding the raw rung price down to a multiple
of the venue's price tick. -/
def adjustPriceToTickSize (p tick : ℚ) : ℚ :=
  ⌊p / tick⌋ * tick

/-- The planner inputs of `calculateShortOrders` (after the leverage
multiplication done by `calculateFuturesOrders`), together with the venue
granularities consumed by the two `Formatter` adjustments. -/
structure ShortLadderConfig where
  currentPrice : ℚ
  maxRisePercentage : ℚ
  totalAmount : ℚ
  orderCount : ℕ
  incrementPercentage : ℚ
  minOrderAmount : ℚ
  tick : ℚ
  step : ℚ
deriving DecidableEq

/-- Geometric growth ratio `r = 1 + incrementPercentage / 100` (line 131). -/
def shortR (cfg : ShortLadderConfig) : ℚ :=
  1 + cfg.incrementPercentage / 100

/-- Price step of the short ladder
(`(highestPrice - currentPrice) / (orderCount - 1)`, lines 127-128). -/
def shortPriceStep (cfg : ShortLadderConfig) : ℚ :=
  (cfg.currentPrice * (1 + cfg.maxRisePercentage / 100) - cfg.currentPrice) /
    ((cfg.orderCount : ℚ) - 1)

/-- Raw price of rung `i` of the short ladder
(`currentPrice + priceStep * i`, line 148). -/
def shortRawPrice (cfg : ShortLadderConfig) (i : ℕ) : ℚ :=
  cfg.currentPrice + shortPriceStep cfg * i

/-- Price step of the long ladder
(`(currentPrice - lowestPrice) / (orderCount - 1)`, lines 50-51 of
`calculateFuturesOrders`). -/
def longPriceStep (currentPrice maxDropPercentage : ℚ) (orderCount : ℕ) : ℚ :=
  (currentPrice - currentPrice * (1 - maxDropPercentage / 100)) / ((orderCount : ℚ) - 1)

/-- Modelled from the spec: the long-side rung construction lives in the
parent class `TradingStrategy.calculateIncrementalOrders`, which is missing
from the sources.  Spec §4.4 states the rungs are evenly spaced downward from
`currentPrice`; the step itself is computed by `calculateFuturesOrders`
(lines 48-51 of the source). -/
def longRawPrice (currentPrice maxDropPercentage : ℚ) (orderCount i : ℕ) : ℚ :=
  currentPrice - longPriceStep currentPrice maxDropPercentage orderCount * i

/-- Closed-form base amount
`totalAmount * (r - 1) / (r^orderCount - 1)` (line 132). -/
def shortCalculatedBaseAmount (cfg : ShortLadderConfig) : ℚ :=
  cfg.totalAmount * (shortR cfg - 1) / (shortR cfg ^ cfg.orderCount - 1)

/-- Base amount clamped up to the minimum order amount
(`Math.max(minOrderAmount, calculatedBaseAmount)`, line 133). -/
def shortBaseAmount (cfg : ShortLadderConfig) : ℚ :=
  max cfg.minOrderAmount (shortCalculatedBaseAmount cfg)

/-- Achieved sum before scaling, `Σ baseAmount * r^i` (lines 136-139). -/
def shortActualTotalAmount (cfg : ShortLadderConfig) : ℚ :=
  ((List.range cfg.orderCount).map (fun i => shortBaseAmount cfg * shortR cfg ^ i)).sum

/-- Downscaling factor, applied only when the achieved sum exceeds the target
(`actualTotalAmount > totalAmount ? totalAmount / actualTotalAmount : 1`,
line 143). -/
def shortScale (cfg : ShortLadderConfig) : ℚ :=
  if cfg.totalAmount < shortActualTotalAmount cfg
  then cfg.totalAmount / shortActualTotalAmount cfg
  else 1

/-- Tick-adjusted limit price of rung `i` (line 150). -/
def shortRungPrice (cfg : ShortLadderConfig) (i : ℕ) : ℚ :=
  adjustPriceToTickSize (shortRawPrice cfg i) cfg.tick

/-- Scaled geometric amount of rung `i`
(`baseAmount * Math.pow(r, i) * scale`, line 153). -/
def shortOrderAmount (cfg : ShortLadderConfig) (i : ℕ) : ℚ :=
  shortBaseAmount cfg * shortR cfg ^ i * shortScale cfg

/-- Step-adjusted quantity of rung `i`
(`adjustQuantityToStepSize(orderAmount / price)`, line 156). -/
def shortRungQuantity (cfg : ShortLadderConfig) (i : ℕ) : ℚ :=
  adjustQuantityToStepSize (shortOrderAmount cfg i / shortRungPrice cfg i) cfg.step

/-- Actual per-rung amount after both adjustments
(`price * quantity`, line 157). -/
def shortActualAmount (cfg : ShortLadderConfig) (i : ℕ) : ℚ :=
  shortRungPrice cfg i * shortRungQuantity cfg i

structure FuturesOrder where
  price : ℚ
  quantity : ℚ
  amount : ℚ
  side : String
  positionSide : String
deriving DecidableEq

/-- Loop body of `calculateShortOrders` (lines 146-177): the rung is kept
only when its actual amount reaches `minOrderAmount`. -/
def shortOrderAt (cfg : ShortLadderConfig) (i : ℕ) : Option FuturesOrder :=
  if cfg.minOrderAmount ≤ shortActualAmount cfg i then
    some ⟨shortRungPrice cfg i, shortRungQuantity cfg i, shortActualAmount cfg i,
      "Ask", "SHORT"⟩
  else none

/-- Embedding of `calculateShortOrders` (lines 114-186). -/
def calculateShortOrders (cfg : ShortLadderConfig) : List FuturesOrder :=
  (List.range cfg.orderCount).filterMap (shortOrderAt cfg)

/-! ## Trailing stop: `calculateDynamicStopLoss`
(futuresTradingStrategy.js 231-260) -/

/-- Embedding of `calculateDynamicStopLoss(entryPrice, currentPrice, isLong)`
with the configuration (`dynamicStopLoss`, `trailingStopActivation`,
`trailingStopDistance`) passed explicitly.  The function is pure in the
current price: it keeps no ratchet state. -/
def calculateDynamicStopLoss (dynamicStopLoss : Bool)
    (activationPercentage trailingDistance : ℚ)
    (entryPrice currentPrice : ℚ) (isLong : Bool) : Option ℚ :=
  if ¬dynamicStopLoss then none
  else if isLong then
    let priceIncrease := (currentPrice - entryPrice) / entryPrice * 100
    if activationPercentage ≤ priceIncrease then
      some (currentPrice * (1 - trailingDistance / 100))
    else none
  else
    let priceDecrease := (entryPrice - currentPrice) / entryPrice * 100
    if activationPercentage ≤ priceDecrease then
      some (currentPrice * (1 + trailingDistance / 100))
    else none

/-- Embedding of `calculateProfitPercentage(currentPrice, entryPrice, isLong)`
(futuresTradingStrategy.js 319-331). -/
def calculateProfitPercentage (currentPrice entryPrice : ℚ) (isLong : Bool) : ℚ :=
  if currentPrice = 0 ∨ entryPrice ≤ 0 then 0
  else if isLong then (currentPrice - entryPrice) / entryPrice * 100
  else (entryPrice - currentPrice) / entryPrice * 100

/-! ## ConnectionManager: message dedup in `processMessage`
(webSocketManager.js 421-580)

The dedup cache `processedMessages` (a JS `Map` keyed by
`` `${e}_${s}_${E}` ``) is embedded as an insertion-ordered association list.
The periodic TTL / size-cap sweep (`setupMessageCleanup`) runs on its own
five-minute timer and is not part of `processMessage`; the embedding covers
a batch of messages processed between sweeps.  Resolution of the several
possible JS price fields (`price || c || lastPrice`) is abstracted into the
single optional `priceField`, and the four-way subscription-confirmation
disjunction into `isSubscriptionConfirmation`. -/

structure WsIncomingMsg where
  hasData : Bool
  outerSymbol : Option String
  eField : Option String
  sField : Option String
  eventTime : Option ℕ
  symbolField : Option String
  priceField : Option ℚ
  isSubscriptionConfirmation : Bool
  isError : Bool
deriving DecidableEq

structure WsSubscriptionState where
  pendingSubscription : Bool
  subscribed : Bool
  lastSubscribedTime : ℤ
deriving DecidableEq

structure WsDedupState where
  symbol : String
  processedMessages : List (String × ℤ)
  lastResponseTime : ℤ
  lastPriceData : Option WsIncomingMsg
  subscription : WsSubscriptionState
deriving DecidableEq

structure WsPriceInfo where
  symbol : String
  price : Option ℚ
  time : ℤ
deriving DecidableEq

/-- Dedup key `` `${priceData.e || 'unknown'}_${priceData.s || 'unknown'}_${priceData.E}` ``
(line 437). -/
def messageId (m : WsIncomingMsg) (t : ℕ) : String :=
  (m.eField.getD "unknown") ++ "_" ++ (m.sField.getD "unknown") ++ "_" ++ toString t

/-- JS `String.prototype.replace('_', '')` replaces only the first
occurrence. -/
def removeFirstUnderscoreAux : List Char → List Char
  | [] => []
  | c :: cs => if c = '_' then cs else c :: removeFirstUnderscoreAux cs

def removeFirstUnderscore (s : String) : String :=
  ⟨removeFirstUnderscoreAux s.data⟩

/-- Resolution `priceData.symbol || priceData.s || (priceData.e === 'ticker'
&& message.symbol)` (line 455). -/
def wsTickerSymbol (m : WsIncomingMsg) : Option String :=
  match m.symbolField with
  | some v => some v
  | none =>
    match m.sField with
    | some v => some v
    | none => if m.eField = some "ticker" then m.outerSymbol else none

/-- Second matching attempt, the Backpack ticker format branch
(lines 529-548): underscore-stripped, case-insensitive symbol comparison. -/
def wsBackpackMatch (st : WsDedupState) (m : WsIncomingMsg) (currentTime : ℤ) :
    WsDedupState × Option WsPriceInfo :=
  if m.eField = some "ticker" then
    let backpackSymbol := m.sField.getD ""
    if (removeFirstUnderscore backpackSymbol).toLower =
        (removeFirstUnderscore st.symbol).toLower then
      ({ st with lastPriceData := some m }, some ⟨backpackSymbol, m.priceField, currentTime⟩)
    else (st, none)
  else (st, none)

/-- Body of `processMessage` after the dedup gate (lines 455-580): response
time bookkeeping, subscription confirmation, error short-circuit, then the
two symbol-matching attempts; a match invokes `onPriceUpdate` (modelled as
returning `some` price info). -/
def wsProcessBody (st : WsDedupState) (m : WsIncomingMsg) (currentTime : ℤ) :
    WsDedupState × Option WsPriceInfo :=
  let st1 := { st with lastResponseTime := currentTime }
  let st2 :=
    if m.isSubscriptionConfirmation ∧ st1.subscription.pendingSubscription then
      { st1 with subscription := ⟨false, true, currentTime⟩ }
    else st1
  if m.isError then (st2, none)
  else
    match wsTickerSymbol m with
    | some ts =>
      if st2.symbol ≠ "" ∧ ts ≠ "" ∧ st2.symbol.toLower = ts.toLower then
        ({ st2 with lastPriceData := some m }, some ⟨ts, m.priceField, currentTime⟩)
      else wsBackpackMatch st2 m currentTime
    | none => wsBackpackMatch st2 m currentTime

/-- Embedding of `processMessage` (lines 421-580): messages carrying a server
event time `E` pass the dedup gate before any forwarding; already-seen keys
are dropped, fresh keys are recorded. -/
def wsProcessMessage (st : WsDedupState) (m : WsIncomingMsg) (currentTime : ℤ) :
    WsDedupState × Option WsPriceInfo :=
  if ¬m.hasData then (st, none)
  else
    match m.eventTime with
    | some t =>
      let key := messageId m t
      if key ∈ st.processedMessages.map Prod.fst then (st, none)
      else
        wsProcessBody
          { st with processedMessages := st.processedMessages ++ [(key, currentTime)] }
          m currentTime
    | none => wsProcessBody st m currentTime

/-- Sequential processing of a batch of inbound messages, collecting the
messages that were forwarded to subscribers. -/
def wsProcessAll (st : WsDedupState) :
    List (WsIncomingMsg × ℤ) → WsDedupState × List (WsIncomingMsg × WsPriceInfo)
  | [] => (st, [])
  | (m, t) :: rest =>
    let step1 := wsProcessMessage st m t
    let stepRest := wsProcessAll step1.1 rest
    (stepRest.1,
      (match step1.2 with
       | some p => [(m, p)]
       | none => []) ++ stepRest.2)

/-- Server event identities of the delivered messages of a batch (only
messages that carry an event time have an identity). -/
def wsDeliveredEventIds (st : WsDedupState) (ms : List (WsIncomingMsg × ℤ)) : List String :=
  (wsProcessAll st ms).2.filterMap (fun mp => mp.1.eventTime.map (messageId mp.1))

/-! ## ConnectionManager: reconnect saturation
(webSocketManager.js `handleReconnect` 364-414, `resetConnectionState`
855-885)

Only the fields that `handleReconnect` reads or writes are modelled;
`reconnectTimeout` records whether a reconnect timer is currently pending.
The returned boolean is true exactly when the call scheduled a reconnect
(the `setTimeout` that later invokes `setupPriceWebSocket`). -/

structure ReconnectState where
  reconnectTimeout : Bool
  reconnectAttempts : ℕ
  maxReconnectAttempts : ℕ
  failedToConnect : Bool
deriving DecidableEq

/-- Embedding of `handleReconnect`: skip when a timer is already pending;
stop and latch `failedToConnect` once the attempt counter has reached the
maximum; otherwise count the attempt and schedule a retry. -/
def handleReconnect (s : ReconnectState) : ReconnectState × Bool :=
  if s.reconnectTimeout then (s, false)
  else if s.maxReconnectAttempts ≤ s.reconnectAttempts then
    ({ s with failedToConnect := true }, false)
  else
    ({ s with reconnectAttempts := s.reconnectAttempts + 1, reconnectTimeout := true }, true)

/-- Iterated invocations of `handleReconnect` (one per close/error-driven
reconnect request). -/
def handleReconnectIter (s : ReconnectState) : ℕ → ReconnectState
  | 0 => s
  | k + 1 => (handleReconnect (handleReconnectIter s k)).1

/-- Embedding of the `resetConnectionState` effect on the reconnect fields
(lines 855-885): the attempt counter and the failed flag are cleared. -/
def resetConnectionState (s : ReconnectState) : ReconnectState :=
  { s with reconnectAttempts := 0, failedToConnect := false }

/-! ## ConnectionManager: per-connection callbacks and stale-event handling
(webSocketManager.js `setupPriceWebSocket` 241-349)

Each callback closes over `currentConnectionId` and compares it with the
manager's `connectionId`.  `currentWsTerminated` records a `terminate()`
call on the object currently stored in `this.ws` — for a stale open event
that object is the manager's *current* connection, since `this.ws` has been
reassigned by the newer connect attempt. -/

structure WsConnState where
  connectionId : ℕ
  activeConnectionCount : ℤ
  connectionActive : Bool
  connectOperationInProgress : Bool
  reconnectAttempts : ℕ
  failedToConnect : Bool
  heartbeatInterval : Bool
  lastCloseTime : ℤ
  currentWsTerminated : Bool
deriving DecidableEq

/-- Embedding of the `open` handler (lines 241-278).  On an id mismatch the
handler still runs `this.ws.terminate()` and decrements
`activeConnectionCount` (lines 244-250); on a match it marks the connection
active, clears the in-progress guard and resets the reconnect bookkeeping. -/
def wsOpenHandler (capturedId : ℕ) (s : WsConnState) : WsConnState :=
  if capturedId ≠ s.connectionId then
    { s with currentWsTerminated := true,
             activeConnectionCount := s.activeConnectionCount - 1 }
  else
    { s with connectionActive := true, connectOperationInProgress := false,
             reconnectAttempts := 0, failedToConnect := false }

/-- Embedding of the `message` handler id gate (lines 281-284): a stale
message is dropped before any processing; the boolean reports whether the
message goes on to `processMessage`. -/
def wsMessageHandler (capturedId : ℕ) (s : WsConnState) : WsConnState × Bool :=
  if capturedId ≠ s.connectionId then (s, false) else (s, true)

/-- Embedding of the `close` handler (lines 314-336): a stale close returns
immediately; a current close clears the active flag and heartbeat, decrements
the connection count and records the close time (the subsequent
`handleReconnect` call belongs to the reconnect model above). -/
def wsCloseHandler (capturedId : ℕ) (s : WsConnState) (now : ℤ) : WsConnState :=
  if capturedId ≠ s.connectionId then s
  else
    { s with connectionActive := false,
             activeConnectionCount := s.activeConnectionCount - 1,
             lastCloseTime := now,
             connectOperationInProgress := false,
             heartbeatInterval := false }

/-- Embedding of the `error` handler (lines 340-349): both branches only
log — a stale error is ignored, a current error defers any reconnect to the
close event. -/
def wsErrorHandler (capturedId : ℕ) (s : WsConnState) : WsConnState :=
  if capturedId ≠ s.connectionId then s
  else s

/-! ## PriceFeed throttling: `PriceMonitor.handleWebSocketPriceUpdate` and
`PriceMonitor.handlePriceUpdate` (app.js 1897-2024)

`lastUpdateTime` and `restartTime` use `0` for the JS `null` initial value
(both are epoch-millisecond timestamps and are only ever tested for
truthiness).  `time` is the `Date` argument delivered with the update (always
truthy in JS, so `timeStamp = time.getTime()`), `now` is `Date.now()` at
processing time. -/

structure RawEvent where
  eType : Option String
  eSymbol : Option String
  eventTime : Option ℕ
deriving DecidableEq

structure PriceMonitorState where
  symbol : String
  currentPrice : ℚ
  lastPrice : ℚ
  lastUpdateTime : ℤ
  restartTime : ℤ
  priceSource : String
  processedPriceEvents : List (String × ℤ)
deriving DecidableEq

structure DeliveredPrice where
  symbol : String
  price : ℚ
  source : String
  prev : ℚ
deriving DecidableEq

/-- Dedup key `` `${rawData.e || 'ticker'}_${rawData.s || symbol}_${rawData.E}` ``
(app.js 1926). -/
def priceEventId (symbol : String) (raw : RawEvent) (t : ℕ) : String :=
  (raw.eType.getD "ticker") ++ "_" ++ (raw.eSymbol.getD symbol) ++ "_" ++ toString t

/-- Embedding of `PriceMonitor.handlePriceUpdate` (app.js 1988-2024): valid
price, then the 100 ms minimum-update-interval gate against
`this.lastUpdateTime`, then delivery to the registered `onPriceUpdate`
subscriber (modelled as returning `some`). -/
def handlePriceUpdateM (st : PriceMonitorState) (price : ℚ) (symbol : String) (now : ℤ) :
    PriceMonitorState × Option DeliveredPrice :=
  if price ≤ 0 then (st, none)
  else if st.lastUpdateTime ≠ 0 ∧ now - st.lastUpdateTime < 100 then (st, none)
  else (st, some ⟨if symbol = "" then st.symbol else symbol, price, st.priceSource, st.lastPrice⟩)

/-- Continuation of `handleWebSocketPriceUpdate` past the unchanged-price
throttle (app.js 1959-1976): first-update restart marking, state update
(`lastPrice`, `currentPrice`, `lastUpdateTime := timeStamp`, source), then
the call into `handlePriceUpdate`. -/
def pmContinue (st1 : PriceMonitorState) (symbol : String) (price : ℚ)
    (timeStamp now : ℤ) : PriceMonitorState × Option DeliveredPrice :=
  let isFirstUpdate := ¬0 < st1.currentPrice
  let st2 := if isFirstUpdate then { st1 with restartTime := now } else st1
  let st3 := { st2 with lastPrice := st2.currentPrice, currentPrice := price,
                        lastUpdateTime := timeStamp, priceSource := "WebSocket" }
  handlePriceUpdateM st3 price symbol now

/-- Embedding of `PriceMonitor.handleWebSocketPriceUpdate` (app.js
1897-1982), new-format path: validity check, event dedup, the
unchanged-price throttle (early return within 1000 ms inside the 5 s
post-restart window, within 500 ms otherwise), then `pmContinue`. -/
def handleWebSocketPriceUpdate (st : PriceMonitorState) (symbol : String) (price : ℚ)
    (raw : Option RawEvent) (time now : ℤ) : PriceMonitorState × Option DeliveredPrice :=
  if symbol = "" ∨ price ≤ 0 then (st, none)
  else
    let dedupResult : Option PriceMonitorState :=
      match raw with
      | some r =>
        match r.eventTime with
        | some t =>
          let eventId := priceEventId symbol r t
          if eventId ∈ st.processedPriceEvents.map Prod.fst then none
          else some { st with processedPriceEvents := st.processedPriceEvents ++ [(eventId, now)] }
        | none => some st
      | none => some st
    match dedupResult with
    | none => (st, none)
    | some st1 =>
      if 0 < st1.currentPrice ∧ price = st1.currentPrice then
        if st1.restartTime ≠ 0 ∧ now - st1.restartTime < 5000 then
          if now - st1.lastUpdateTime < 1000 then (st1, none)
          else pmContinue st1 symbol price time now
        else
          if now - st1.lastUpdateTime < 500 then (st1, none)
          else pmContinue st1 symbol price time now
      else pmContinue st1 symbol price time now

/-! ## TradingCycleController risk gate: `getPositionInfo`, `executeTrade`
and the monitoring-interval body (FuturesTradingApp)

External calls are supplied through an environment oracle: `positions` is
the outcome of every `getPositions` call of the tick (`none` = the query
throws after retries), and the ladder computation inside `executeTrade` is
abstracted to `plannedOrdersCount` created orders, since the claims below
concern only whether the order-mutating sections are reached. -/

structure Position where
  netQuantity : ℚ
  entryPrice : ℚ
  pnlUnrealized : ℚ
deriving DecidableEq

structure FuturesAppState where
  canFetchPositions : Bool
  hasOpenPosition : Bool
  positionAmount : ℚ
  entryPrice : ℚ
  unrealizedPnl : ℚ
  positionSide : String
  takeProfitTriggered : Bool
  lastPositionClosedReason : Option String
deriving DecidableEq

/-- Embedding of `getPositionInfo`: a successful query sets
`canFetchPositions` and overwrites the position snapshot (clearing it when
the list is empty); a failed query only clears `canFetchPositions`, leaving
the stale snapshot in place. -/
def getPositionInfo (s : FuturesAppState) (result : Option (List Position)) :
    FuturesAppState :=
  match result with
  | none => { s with canFetchPositions := false }
  | some [] =>
    { s with canFetchPositions := true, hasOpenPosition := false,
             positionAmount := 0, entryPrice := 0, unrealizedPnl := 0 }
  | some (p :: _) =>
    { s with canFetchPositions := true, hasOpenPosition := true,
             positionAmount := p.netQuantity, entryPrice := p.entryPrice,
             unrealizedPnl := p.pnlUnrealized,
             positionSide := if 0 < p.netQuantity then "LONG" else "SHORT" }

inductive TradeAction where
  | cancelOrders : TradeAction
  | createOrder : TradeAction
  | closePosition : TradeAction
deriving DecidableEq

structure TickEnv where
  positions : Option (List Position)
  marketPrice : Option ℚ
  priceDataAgeMs : ℤ
  openOrdersCount : ℕ
  cancelExistingOrdersOnStart : Bool
  plannedOrdersCount : ℕ
  cancelSucceeds : Bool
  remainingOrdersAfterCancel : ℕ
  takeProfitPercentage : ℚ
deriving DecidableEq

/-- Embedding of `executeTrade`: price availability and freshness gates, the
position refresh, the `canFetchPositions` risk gate, the existing-position
short-circuit (which only sets protection prices), the existing-open-orders
policy, then cancellation of existing orders and creation of the planned
ladder. -/
def executeTrade (s : FuturesAppState) (env : TickEnv) :
    FuturesAppState × List TradeAction :=
  match env.marketPrice with
  | none => (s, [])
  | some _ =>
    if 60000 < env.priceDataAgeMs then (s, [])
    else
      let s1 := getPositionInfo s env.positions
      if s1.canFetchPositions = false then (s1, [])
      else if s1.hasOpenPosition then (s1, [])
      else
        let hasExistingOrders := 0 < env.openOrdersCount
        if hasExistingOrders ∧ ¬env.cancelExistingOrdersOnStart then (s1, [])
        else
          ((if hasExistingOrders then s1 else s1),
            (if hasExistingOrders then [TradeAction.cancelOrders] else []) ++
              List.replicate env.plannedOrdersCount TradeAction.createOrder)

/-- Embedding of one iteration of the monitoring interval installed by
`startTakeProfitMonitoring`: position refresh, then either the take-profit
branch (close the position, cancel residual orders, rebuild the ladder via
`executeTrade`) or the no-fill branch (gated by the no-fill interval and by
`canFetchPositions`, with a double-checked position refresh before cancelling
and re-entering `executeTrade`).  The returned `ℤ` is the updated
`lastPositionCheckTime`. -/
def monitoringTick (s : FuturesAppState) (env : TickEnv)
    (lastPositionCheckTime now noFillIntervalMs : ℤ) :
    FuturesAppState × List TradeAction × ℤ :=
  let s1 := getPositionInfo s env.positions
  if s1.hasOpenPosition ∧ ¬s1.takeProfitTriggered then
    match env.marketPrice with
    | none => (s1, [], now)
    | some p =>
      let profitPercentage :=
        calculateProfitPercentage p s1.entryPrice (s1.positionSide = "LONG")
      if env.takeProfitPercentage ≤ profitPercentage then
        let s2 := { s1 with takeProfitTriggered := true,
                            lastPositionClosedReason := some "take-profit" }
        let s3 := { s2 with takeProfitTriggered := false, hasOpenPosition := false,
                            positionAmount := 0, entryPrice := 0, unrealizedPnl := 0 }
        if 0 < env.remainingOrdersAfterCancel then
          (s3, [TradeAction.closePosition, TradeAction.cancelOrders], now)
        else
          let after := executeTrade s3 env
          (after.1, [TradeAction.closePosition, TradeAction.cancelOrders] ++ after.2, now)
      else (s1, [], now)
  else
    if noFillIntervalMs < now - lastPositionCheckTime then
      if ¬s1.canFetchPositions then (s1, [], now)
      else
        let s2 := getPositionInfo s1 env.positions
        if s2.hasOpenPosition then (s2, [], now)
        else
          let s3 := { s2 with lastPositionClosedReason := some "no-fill restart" }
          if env.cancelSucceeds then
            if 0 < env.remainingOrdersAfterCancel then
              (s3, [TradeAction.cancelOrders], now)
            else
              let after := executeTrade s3 env
              (after.1, [TradeAction.cancelOrders] ++ after.2, now)
          else (s3, [TradeAction.cancelOrders], now)
    else (s1, [], lastPositionCheckTime)

/-! ## Theorems -/

theorem retryLoop_calls_le (op : ℕ → Except ε α) :
    ∀ (fuel attempt : ℕ) (le : Option ε), (retryLoop op attempt fuel le).calls ≤ fuel := by
  intro fuel
  induction fuel with
  | zero => intro attempt le; simp [retryLoop]
  | succ f ih =>
    intro attempt le
    simp only [retryLoop]
    cases hop : op attempt with
    | ok a => simp
    | error e =>
      simpa using Nat.succ_le_succ (ih (attempt + 1) (some e))

theorem retryLoop_success (op : ℕ → Except ε α) (a : α) :
    ∀ (k fuel attempt : ℕ) (le : Option ε), k < fuel →
      (∀ j, j < k → ∃ e, op (attempt + j) = Except.error e) →
      op (attempt + k) = Except.ok a →
      retryLoop op attempt fuel le =
        ⟨Except.ok a, k + 1, (List.range k).map (fun j => 2 ^ (attempt + j) * 500)⟩ := by
  intro k
  induction k with
  | zero =>
    intro fuel attempt le hk _hfail hok
    obtain ⟨f, rfl⟩ : ∃ f, fuel = f + 1 := ⟨fuel - 1, by omega⟩
    rw [Nat.add_zero] at hok
    simp [retryLoop, hok]
  | succ k ih =>
    intro fuel attempt le hk hfail hok
    obtain ⟨f, rfl⟩ : ∃ f, fuel = f + 1 := ⟨fuel - 1, by omega⟩
    obtain ⟨e, he⟩ := hfail 0 (Nat.succ_pos k)
    rw [Nat.add_zero] at he
    have hrest := ih f (attempt + 1) (some e) (by omega)
      (fun j hj => by
        obtain ⟨e2, he2⟩ := hfail (j + 1) (by omega)
        exact ⟨e2, by rwa [show attempt + 1 + j = attempt + (j + 1) by omega]⟩)
      (by rwa [show attempt + 1 + k = attempt + (k + 1) by omega])
    have hf : 0 < f := by omega
    simp only [retryLoop, he, hrest, hf, if_pos]
    refine congrArg (RetryTrace.mk (Except.ok a) (k + 1 + 1)) ?_
    rw [List.range_succ_eq_map, List.map_cons, List.map_map]
    simp only [List.singleton_append, Nat.add_zero, List.cons.injEq, true_and]
    refine List.map_congr_left (fun j _ => ?_)
    simp only [Function.comp_apply]
    have harg : attempt + 1 + j = attempt + j.succ := by omega
    rw [harg]

theorem retryLoop_allFail (op : ℕ → Except ε α) (err : ℕ → ε) :
    ∀ (fuel attempt : ℕ) (le : Option ε), 0 < fuel →
      (∀ j, j < fuel → op (attempt + j) = Except.error (err (attempt + j))) →
      retryLoop op attempt fuel le =
        ⟨Except.error (some (err (attempt + fuel - 1))), fuel,
          (List.range (fuel - 1)).map (fun j => 2 ^ (attempt + j) * 500)⟩ := by
  intro fuel
  induction fuel with
  | zero => intro attempt le h; omega
  | succ f ih =>
    intro attempt le _ hfail
    have h0 := hfail 0 (Nat.succ_pos f)
    rw [Nat.add_zero] at h0
    cases Nat.eq_zero_or_pos f with
    | inl hf0 =>
      subst hf0
      simp [retryLoop, h0]
    | inr hfpos =>
      have hrest := ih (attempt + 1) (some (err attempt)) hfpos (fun j hj => by
        have := hfail (j + 1) (by omega)
        rwa [show attempt + (j + 1) = attempt + 1 + j by omega] at this)
      simp only [retryLoop, h0, hrest, hfpos, if_pos]
      refine congrArg₂ (fun r w => RetryTrace.mk r (f + 1) w) ?_ ?_
      · have harg : attempt + 1 + f - 1 = attempt + (f + 1) - 1 := by omega
        rw [harg]
      · obtain ⟨g, rfl⟩ : ∃ g, f = g + 1 := ⟨f - 1, by omega⟩
        rw [show g + 1 + 1 - 1 = g + 1 by omega, show g + 1 - 1 = g by omega,
          List.range_succ_eq_map, List.map_cons, List.map_map]
        simp only [List.singleton_append, Nat.add_zero, List.cons.injEq, true_and]
        refine List.map_congr_left (fun j _ => ?_)
        simp only [Function.comp_apply]
        have harg : attempt + 1 + j = attempt + j.succ := by omega
        rw [harg]

/-- C3.  With a positive attempt budget `n`, `executeWithRetry` invokes the
operation at most `n` times; a first success at attempt `k` is returned
immediately after exactly `k + 1` invocations, each preceding failure having
waited `500 * 2^attempt` milliseconds; and when all `n` attempts fail, the
last error propagates unmodified, with backoff waits after every failure
except the final one. -/
theorem executeWithRetry_contract (op : ℕ → Except ε α) (n : ℕ) (hn : 1 ≤ n) :
    (executeWithRetry op (n : ℤ)).calls ≤ n
    ∧ (∀ k a, k < n → (∀ j, j < k → ∃ e, op j = Except.error e) → op k = Except.ok a →
        executeWithRetry op (n : ℤ) =
          ⟨Except.ok a, k + 1, (List.range k).map (fun j => 2 ^ j * 500)⟩)
    ∧ (∀ err : ℕ → ε, (∀ j, j < n → op j = Except.error (err j)) →
        executeWithRetry op (n : ℤ) =
          ⟨Except.error (some (err (n - 1))), n,
            (List.range (n - 1)).map (fun j => 2 ^ j * 500)⟩) := by
  have htn : ((n : ℤ)).toNat = n := Int.toNat_natCast n
  refine ⟨?_, ?_, ?_⟩
  · rw [executeWithRetry, htn]
    exact retryLoop_calls_le op n 0 none
  · intro k a hk hfail hok
    rw [executeWithRetry, htn]
    have := retryLoop_success op a k n 0 none hk
      (fun j hj => by simpa using hfail j hj) (by simpa using hok)
    simpa using this
  · intro err hfail
    rw [executeWithRetry, htn]
    have := retryLoop_allFail op err n 0 none (by omega)
      (fun j hj => by simpa using hfail j hj)
    simpa using this

/-- Concrete retry scenario used by the witnesses: the first attempt fails
with error `7`, every later attempt succeeds with `42`. -/
def retryDemoOp : ℕ → Except ℕ ℕ :=
  fun j => if j = 0 then Except.error 7 else Except.ok 42

/-- Witness for C3: with budget 3 and a failure on attempt 0 only, the
executor returns the attempt-1 success after two invocations and a single
500 ms wait. -/
theorem executeWithRetry_contract_witness :
    (executeWithRetry retryDemoOp ((3 : ℕ) : ℤ)).result = Except.ok 42
    ∧ (executeWithRetry retryDemoOp ((3 : ℕ) : ℤ)).calls = 2
    ∧ (executeWithRetry retryDemoOp ((3 : ℕ) : ℤ)).waits = [500] := by
  have h := (executeWithRetry_contract retryDemoOp 3 (by norm_num)).2.1 1 42
    (by norm_num)
    (fun j hj => ⟨7, by
      have hj0 : j = 0 := by omega
      subst hj0
      rfl⟩)
    rfl
  rw [h]
  refine ⟨rfl, rfl, ?_⟩
  simp [List.range_succ]

/-- C10.  With a non-positive retry budget the loop body never runs: the
operation is not invoked (zero calls, no waits) and the rejection value is
the uninitialised `lastError`, the JS `undefined`, modelled as
`Except.error none`. -/
theorem executeWithRetry_nonpositive (op : ℕ → Except ε α) (m : ℤ) (hm : m ≤ 0) :
    (executeWithRetry op m).result = Except.error none
    ∧ (executeWithRetry op m).calls = 0
    ∧ (executeWithRetry op m).waits = [] := by
  have h0 : m.toNat = 0 := Int.toNat_of_nonpos hm
  rw [executeWithRetry, h0]
  exact ⟨rfl, rfl, rfl⟩

/-- Witness for C10: a zero budget rejects with the undefined last error and
never calls the (always succeeding) demo operation. -/
theorem executeWithRetry_nonpositive_witness :
    (executeWithRetry retryDemoOp (0 : ℤ)).result = Except.error none
    ∧ (executeWithRetry retryDemoOp (0 : ℤ)).calls = 0
    ∧ (executeWithRetry retryDemoOp (0 : ℤ)).waits = [] :=
  executeWithRetry_nonpositive retryDemoOp 0 (by norm_num)

theorem shortPriceStep_eq (cfg : ShortLadderConfig) :
    shortPriceStep cfg =
      cfg.currentPrice * (cfg.maxRisePercentage / 100) / ((cfg.orderCount : ℚ) - 1) := by
  unfold shortPriceStep
  ring_nf

theorem longPriceStep_eq (currentPrice maxDropPercentage : ℚ) (orderCount : ℕ) :
    longPriceStep currentPrice maxDropPercentage orderCount =
      currentPrice * (maxDropPercentage / 100) / ((orderCount : ℚ) - 1) := by
  unfold longPriceStep
  ring_nf

/-- C2.  For rung counts of at least 2 the raw rung price grid starts at the
current price, is evenly spaced with step
`currentPrice * maxMovePercent/100 / (rungCount - 1)` (upward for the short
ladder, downward for the long one), ends exactly at
`currentPrice * (1 ± maxMovePercent/100)`, and is strictly monotonic in the
configured direction. -/
theorem ladder_price_grid (cfg : ShortLadderConfig) (hn : 2 ≤ cfg.orderCount)
    (hc : 0 < cfg.currentPrice) (hm : 0 < cfg.maxRisePercentage) :
    shortRawPrice cfg 0 = cfg.currentPrice
    ∧ shortRawPrice cfg (cfg.orderCount - 1)
        = cfg.currentPrice * (1 + cfg.maxRisePercentage / 100)
    ∧ (∀ i, shortRawPrice cfg (i + 1) - shortRawPrice cfg i
        = cfg.currentPrice * (cfg.maxRisePercentage / 100) / ((cfg.orderCount : ℚ) - 1))
    ∧ (∀ i j, i < j → shortRawPrice cfg i < shortRawPrice cfg j)
    ∧ longRawPrice cfg.currentPrice cfg.maxRisePercentage cfg.orderCount 0 = cfg.currentPrice
    ∧ longRawPrice cfg.currentPrice cfg.maxRisePercentage cfg.orderCount (cfg.orderCount - 1)
        = cfg.currentPrice * (1 - cfg.maxRisePercentage / 100)
    ∧ (∀ i, longRawPrice cfg.currentPrice cfg.maxRisePercentage cfg.orderCount i
          - longRawPrice cfg.currentPrice cfg.maxRisePercentage cfg.orderCount (i + 1)
        = cfg.currentPrice * (cfg.maxRisePercentage / 100) / ((cfg.orderCount : ℚ) - 1))
    ∧ (∀ i j, i < j →
        longRawPrice cfg.currentPrice cfg.maxRisePercentage cfg.orderCount j
          < longRawPrice cfg.currentPrice cfg.maxRisePercentage cfg.orderCount i) := by
  have hn2 : (2 : ℚ) ≤ (cfg.orderCount : ℚ) := by exact_mod_cast hn
  have hd : 0 < (cfg.orderCount : ℚ) - 1 := by linarith
  have hnum : 0 < cfg.currentPrice * (cfg.maxRisePercentage / 100) := by positivity
  have hstep : 0 < shortPriceStep cfg := by
    rw [shortPriceStep_eq]
    exact div_pos hnum hd
  have hlstep : 0 < longPriceStep cfg.currentPrice cfg.maxRisePercentage cfg.orderCount := by
    rw [longPriceStep_eq]
    exact div_pos hnum hd
  have hcast : ((cfg.orderCount - 1 : ℕ) : ℚ) = (cfg.orderCount : ℚ) - 1 := by
    have h1 : 1 ≤ cfg.orderCount := by omega
    rw [Nat.cast_sub h1, Nat.cast_one]
  refine ⟨?_, ?_, ?_, ?_, ?_, ?_, ?_, ?_⟩
  · simp [shortRawPrice]
  · rw [shortRawPrice, shortPriceStep_eq, hcast, div_mul_cancel₀ _ (ne_of_gt hd)]
    ring
  · intro i
    rw [shortRawPrice, shortRawPrice, shortPriceStep_eq]
    push_cast
    ring
  · intro i j hij
    rw [shortRawPrice, shortRawPrice]
    have hcastlt : (i : ℚ) < (j : ℚ) := by exact_mod_cast hij
    have := mul_lt_mul_of_pos_left hcastlt hstep
    linarith
  · simp [longRawPrice]
  · rw [longRawPrice, longPriceStep_eq, hcast, div_mul_cancel₀ _ (ne_of_gt hd)]
    ring
  · intro i
    rw [longRawPrice, longRawPrice, longPriceStep_eq]
    push_cast
    ring
  · intro i j hij
    rw [longRawPrice, longRawPrice]
    have hcastlt : (i : ℚ) < (j : ℚ) := by exact_mod_cast hij
    have := mul_lt_mul_of_pos_left hcastlt hlstep
    linarith

/-- Planner input of the specification's worked example: price 100, 3% move,
100 USDC over 3 rungs with 50% growth and a 10 USDC minimum; venue tick 0.01
and quantity step 0.00001. -/
def demoLadderConfig : ShortLadderConfig :=
  ⟨100, 3, 100, 3, 50, 10, 1 / 100, 1 / 100000⟩

/-- Witness for C2 at the specification's example configuration. -/
theorem ladder_price_grid_witness :
    shortRawPrice demoLadderConfig 0 = 100
    ∧ shortRawPrice demoLadderConfig 0 < shortRawPrice demoLadderConfig 1
    ∧ shortRawPrice demoLadderConfig 2 = 103
    ∧ longRawPrice 100 3 3 2 = 97 := by
  have h := ladder_price_grid demoLadderConfig (by decide) (by decide) (by decide)
  exact ⟨h.1, h.2.2.2.1 0 1 (by decide),
    by norm_num [shortRawPrice, shortPriceStep, demoLadderConfig],
    by norm_num [longRawPrice, longPriceStep]⟩

theorem adjustQuantityToStepSize_le (q step : ℚ) (hstep : 0 < step) :
    adjustQuantityToStepSize q step ≤ q := by
  unfold adjustQuantityToStepSize
  calc (⌊q / step⌋ : ℚ) * step ≤ q / step * step :=
        mul_le_mul_of_nonneg_right (Int.floor_le _) hstep.le
    _ = q := div_mul_cancel₀ q (ne_of_gt hstep)

theorem adjustPriceToTickSize_nonneg (p tick : ℚ) (hp : 0 ≤ p) (ht : 0 < tick) :
    0 ≤ adjustPriceToTickSize p tick := by
  unfold adjustPriceToTickSize
  have h1 : (0 : ℤ) ≤ ⌊p / tick⌋ := Int.floor_nonneg.mpr (div_nonneg hp ht.le)
  have h2 : (0 : ℚ) ≤ (⌊p / tick⌋ : ℚ) := by exact_mod_cast h1
  exact mul_nonneg h2 ht.le

theorem shortR_gt_one (cfg : ShortLadderConfig) (hinc : 0 < cfg.incrementPercentage) :
    1 < shortR cfg := by
  unfold shortR
  have : 0 < cfg.incrementPercentage / 100 := by positivity
  linarith

theorem shortBaseAmount_pos (cfg : ShortLadderConfig) (hmin : 0 < cfg.minOrderAmount) :
    0 < shortBaseAmount cfg :=
  lt_of_lt_of_le hmin (le_max_left _ _)

theorem shortActualTotalAmount_pos (cfg : ShortLadderConfig) (hn : 1 ≤ cfg.orderCount)
    (hmin : 0 < cfg.minOrderAmount) (hinc : 0 < cfg.incrementPercentage) :
    0 < shortActualTotalAmount cfg := by
  have hr : 0 < shortR cfg := lt_trans one_pos (shortR_gt_one cfg hinc)
  have hbase := shortBaseAmount_pos cfg hmin
  unfold shortActualTotalAmount
  apply List.sum_pos
  · intro x hx
    rw [List.mem_map] at hx
    obtain ⟨i, _, rfl⟩ := hx
    exact mul_pos hbase (pow_pos hr i)
  · intro hemp
    have := congrArg List.length hemp
    simp only [List.length_map, List.length_range, List.length_nil] at this
    omega

theorem shortScale_pos (cfg : ShortLadderConfig) (htot : 0 < cfg.totalAmount)
    (hactual : 0 < shortActualTotalAmount cfg) : 0 < shortScale cfg := by
  unfold shortScale
  split_ifs with h
  · exact div_pos htot hactual
  · norm_num

theorem shortScale_le_one (cfg : ShortLadderConfig) (htot : 0 < cfg.totalAmount)
    (hactual : 0 < shortActualTotalAmount cfg) : shortScale cfg ≤ 1 := by
  unfold shortScale
  split_ifs with h
  · rw [div_le_one hactual]
    linarith
  · exact le_rfl

theorem shortScaledTotal_le (cfg : ShortLadderConfig) (htot : 0 < cfg.totalAmount)
    (hactual : 0 < shortActualTotalAmount cfg) :
    shortActualTotalAmount cfg * shortScale cfg ≤ cfg.totalAmount := by
  unfold shortScale
  split_ifs with h
  · rw [mul_comm, div_mul_cancel₀ _ (ne_of_gt hactual)]
  · rw [mul_one]
    exact not_lt.mp h

theorem sum_map_mul_right_rat (f : ℕ → ℚ) (c : ℚ) :
    ∀ n, ((List.range n).map (fun i => f i * c)).sum = ((List.range n).map f).sum * c := by
  intro n
  induction n with
  | zero => simp
  | succ n ih =>
    rw [List.range_succ]
    simp only [List.map_append, List.sum_append, List.map_cons, List.sum_cons,
      List.map_nil, List.sum_nil, ih]
    ring

theorem shortOrderAmount_sum (cfg : ShortLadderConfig) :
    ((List.range cfg.orderCount).map (fun i => shortOrderAmount cfg i)).sum
      = shortActualTotalAmount cfg * shortScale cfg := by
  unfold shortOrderAmount shortActualTotalAmount
  exact sum_map_mul_right_rat (fun i => shortBaseAmount cfg * shortR cfg ^ i)
    (shortScale cfg) cfg.orderCount

theorem shortOrderAmount_nonneg (cfg : ShortLadderConfig) (hn : 1 ≤ cfg.orderCount)
    (htot : 0 < cfg.totalAmount) (hmin : 0 < cfg.minOrderAmount)
    (hinc : 0 < cfg.incrementPercentage) (i : ℕ) : 0 ≤ shortOrderAmount cfg i := by
  have hr : 0 < shortR cfg := lt_trans one_pos (shortR_gt_one cfg hinc)
  have hscale := shortScale_pos cfg htot (shortActualTotalAmount_pos cfg hn hmin hinc)
  unfold shortOrderAmount
  have := mul_pos (mul_pos (shortBaseAmount_pos cfg hmin) (pow_pos hr i)) hscale
  linarith

theorem shortRawPrice_ge (cfg : ShortLadderConfig) (hn : 2 ≤ cfg.orderCount)
    (hc : 0 < cfg.currentPrice) (hm : 0 ≤ cfg.maxRisePercentage) (i : ℕ) :
    cfg.currentPrice ≤ shortRawPrice cfg i := by
  have hn2 : (2 : ℚ) ≤ (cfg.orderCount : ℚ) := by exact_mod_cast hn
  have hd : 0 < (cfg.orderCount : ℚ) - 1 := by linarith
  have hnum : 0 ≤ cfg.currentPrice * (cfg.maxRisePercentage / 100) := by positivity
  have hstep : 0 ≤ shortPriceStep cfg := by
    rw [shortPriceStep_eq]
    exact div_nonneg hnum hd.le
  have hi : (0 : ℚ) ≤ (i : ℚ) := by positivity
  unfold shortRawPrice
  nlinarith [mul_nonneg hstep hi]

theorem shortActualAmount_le (cfg : ShortLadderConfig) (hn : 2 ≤ cfg.orderCount)
    (hc : 0 < cfg.currentPrice) (hm : 0 ≤ cfg.maxRisePercentage)
    (hmin : 0 < cfg.minOrderAmount) (htick : 0 < cfg.tick) (hstep : 0 < cfg.step)
    (i : ℕ) (hkeep : cfg.minOrderAmount ≤ shortActualAmount cfg i) :
    shortActualAmount cfg i ≤ shortOrderAmount cfg i := by
  have hprice : 0 ≤ shortRungPrice cfg i :=
    adjustPriceToTickSize_nonneg _ _
      (le_trans hc.le (shortRawPrice_ge cfg hn hc hm i)) htick
  rcases eq_or_lt_of_le hprice with h0 | hpos
  · exfalso
    have hzero : shortActualAmount cfg i = 0 := by
      rw [shortActualAmount, ← h0, zero_mul]
    rw [hzero] at hkeep
    linarith
  · have hq := adjustQuantityToStepSize_le
      (shortOrderAmount cfg i / shortRungPrice cfg i) cfg.step hstep
    calc shortActualAmount cfg i
        = shortRungPrice cfg i * shortRungQuantity cfg i := rfl
      _ ≤ shortRungPrice cfg i * (shortOrderAmount cfg i / shortRungPrice cfg i) :=
          mul_le_mul_of_nonneg_left hq hpos.le
      _ = shortOrderAmount cfg i / shortRungPrice cfg i * shortRungPrice cfg i := by ring
      _ = shortOrderAmount cfg i := div_mul_cancel₀ _ (ne_of_gt hpos)

theorem filterMap_amount_sum_le (f : ℕ → Option FuturesOrder) (g : ℕ → ℚ)
    (hg : ∀ i, 0 ≤ g i) (hb : ∀ i o, f i = some o → o.amount ≤ g i) :
    ∀ l : List ℕ, ((l.filterMap f).map FuturesOrder.amount).sum ≤ (l.map g).sum := by
  intro l
  induction l with
  | nil => simp
  | cons hd tl ih =>
    cases hf : f hd with
    | none =>
      simp only [List.filterMap_cons, hf, List.map_cons, List.sum_cons]
      have h0 := hg hd
      linarith
    | some o =>
      simp only [List.filterMap_cons, hf, List.map_cons, List.sum_cons]
      have hbo := hb hd o hf
      linarith

/-- C1.  For valid planner inputs the short-ladder output satisfies: the
amounts of the returned rungs sum to at most `totalAmount`; every returned
rung's amount is at least `minOrderAmount` (rungs falling below it are
dropped by `shortOrderAt`); the scale factor never scales up and is applied
(differently from 1) only when the achieved sum exceeds the target; and the
base amount is the geometric-series closed form clamped up to
`minOrderAmount`. -/
theorem calculateShortOrders_contract (cfg : ShortLadderConfig)
    (hn : 2 ≤ cfg.orderCount) (hc : 0 < cfg.currentPrice)
    (htot : 0 < cfg.totalAmount) (hmin : 0 < cfg.minOrderAmount)
    (hinc : 0 < cfg.incrementPercentage) (hrise : 0 ≤ cfg.maxRisePercentage)
    (htick : 0 < cfg.tick) (hstep : 0 < cfg.step) :
    ((calculateShortOrders cfg).map FuturesOrder.amount).sum ≤ cfg.totalAmount
    ∧ (∀ o ∈ calculateShortOrders cfg, cfg.minOrderAmount ≤ o.amount)
    ∧ shortScale cfg ≤ 1
    ∧ (shortActualTotalAmount cfg ≤ cfg.totalAmount → shortScale cfg = 1)
    ∧ shortBaseAmount cfg = max cfg.minOrderAmount
        (cfg.totalAmount * (shortR cfg - 1) / (shortR cfg ^ cfg.orderCount - 1)) := by
  have hn1 : 1 ≤ cfg.orderCount := by omega
  have hactual := shortActualTotalAmount_pos cfg hn1 hmin hinc
  refine ⟨?_, ?_, shortScale_le_one cfg htot hactual, ?_, rfl⟩
  · have hb : ∀ i o, shortOrderAt cfg i = some o → o.amount ≤ shortOrderAmount cfg i := by
      intro i o hio
      rw [shortOrderAt] at hio
      split_ifs at hio with hkeep
      · obtain rfl := Option.some.inj hio
        exact shortActualAmount_le cfg hn hc hrise hmin htick hstep i hkeep
    calc ((calculateShortOrders cfg).map FuturesOrder.amount).sum
        ≤ ((List.range cfg.orderCount).map (fun i => shortOrderAmount cfg i)).sum := by
          rw [calculateShortOrders]
          exact filterMap_amount_sum_le (shortOrderAt cfg) (fun i => shortOrderAmount cfg i)
            (shortOrderAmount_nonneg cfg hn1 htot hmin hinc) hb _
      _ = shortActualTotalAmount cfg * shortScale cfg := shortOrderAmount_sum cfg
      _ ≤ cfg.totalAmount := shortScaledTotal_le cfg htot hactual
  · intro o ho
    rw [calculateShortOrders, List.mem_filterMap] at ho
    obtain ⟨i, _, hfi⟩ := ho
    rw [shortOrderAt] at hfi
    split_ifs at hfi with hkeep
    · obtain rfl := Option.some.inj hfi
      exact hkeep
  · intro h
    unfold shortScale
    exact if_neg (not_lt.mpr h)

/-- Witness for C1 at the specification's example configuration. -/
theorem calculateShortOrders_contract_witness :
    ((calculateShortOrders demoLadderConfig).map FuturesOrder.amount).sum
        ≤ demoLadderConfig.totalAmount
    ∧ (∀ o ∈ calculateShortOrders demoLadderConfig,
        demoLadderConfig.minOrderAmount ≤ o.amount)
    ∧ shortScale demoLadderConfig ≤ 1 := by
  have h := calculateShortOrders_contract demoLadderConfig (by decide)
    (by norm_num [demoLadderConfig]) (by norm_num [demoLadderConfig])
    (by norm_num [demoLadderConfig]) (by norm_num [demoLadderConfig])
    (by norm_num [demoLadderConfig]) (by norm_num [demoLadderConfig])
    (by norm_num [demoLadderConfig])
  exact ⟨h.1, h.2.1, h.2.2.1⟩

/-- C8 counterexample.  With the trailing stop enabled (activation 1%,
distance 0.5%), a LONG position entered at 100 sees price 102 then 101: both
updates are past activation, yet the second computed stop (100.495) is
strictly lower than the first (101.49) — the stop loosened, refuting the
claimed monotone tightening over successive price updates. -/
theorem calculateDynamicStopLoss_not_monotone :
    calculateDynamicStopLoss true 1 (1 / 2) 100 102 true = some (10149 / 100)
    ∧ calculateDynamicStopLoss true 1 (1 / 2) 100 101 true = some (20099 / 200)
    ∧ (20099 / 200 : ℚ) < 10149 / 100 := by
  refine ⟨?_, ?_, by norm_num⟩ <;> norm_num [calculateDynamicStopLoss]

/-- C8 (amended).  The trailing-stop function keeps no ratchet state: past
activation it returns exactly `currentPrice * (1 ∓ trailingDistance/100)`,
which is monotone in the current price (for both sides), but over successive
updates it follows the price and loosens whenever the price retraces while
remaining past activation. -/
theorem calculateDynamicStopLoss_amended (act d entry p1 p2 : ℚ)
    (hd0 : 0 ≤ d) (hd1 : d ≤ 100) (h12 : p1 ≤ p2) :
    (∀ v1 v2, calculateDynamicStopLoss true act d entry p1 true = some v1 →
        calculateDynamicStopLoss true act d entry p2 true = some v2 → v1 ≤ v2)
    ∧ (∀ v1 v2, calculateDynamicStopLoss true act d entry p1 false = some v1 →
        calculateDynamicStopLoss true act d entry p2 false = some v2 → v1 ≤ v2)
    ∧ (act ≤ (p2 - entry) / entry * 100 →
        calculateDynamicStopLoss true act d entry p2 true = some (p2 * (1 - d / 100)))
    ∧ (act ≤ (entry - p2) / entry * 100 →
        calculateDynamicStopLoss true act d entry p2 false = some (p2 * (1 + d / 100))) := by
  refine ⟨?_, ?_, ?_, ?_⟩
  · intro v1 v2 h1 h2
    simp only [calculateDynamicStopLoss, Bool.not_true, Bool.false_eq_true,
      if_false, if_true] at h1 h2
    split_ifs at h1 h2
    obtain rfl := Option.some.inj h1
    obtain rfl := Option.some.inj h2
    have hfac : 0 ≤ 1 - d / 100 := by linarith
    exact mul_le_mul_of_nonneg_right h12 hfac
  · intro v1 v2 h1 h2
    simp only [calculateDynamicStopLoss, Bool.not_true, Bool.false_eq_true,
      if_false, if_true] at h1 h2
    split_ifs at h1 h2
    obtain rfl := Option.some.inj h1
    obtain rfl := Option.some.inj h2
    have hfac : 0 ≤ 1 + d / 100 := by linarith
    exact mul_le_mul_of_nonneg_right h12 hfac
  · intro hact
    simp [calculateDynamicStopLoss, hact]
  · intro hact
    simp [calculateDynamicStopLoss, hact]

/-- Witness for the amended C8: entry 100, prices 101 then 102 (both past
activation) give non-decreasing stops 100.495 and 101.49. -/
theorem calculateDynamicStopLoss_amended_witness :
    calculateDynamicStopLoss true 1 (1 / 2) 100 101 true = some (20099 / 200)
    ∧ calculateDynamicStopLoss true 1 (1 / 2) 100 102 true = some (10149 / 100)
    ∧ (20099 / 200 : ℚ) ≤ 10149 / 100 := by
  have h1 : calculateDynamicStopLoss true 1 (1 / 2) 100 101 true = some (20099 / 200) := by
    norm_num [calculateDynamicStopLoss]
  have h2 : calculateDynamicStopLoss true 1 (1 / 2) 100 102 true = some (10149 / 100) := by
    norm_num [calculateDynamicStopLoss]
  exact ⟨h1, h2, (calculateDynamicStopLoss_amended 1 (1 / 2) 100 101 102 (by norm_num)
    (by norm_num) (by norm_num)).1 _ _ h1 h2⟩

theorem handleReconnectIter_saturated (s : ReconnectState)
    (hsat : s.maxReconnectAttempts ≤ s.reconnectAttempts)
    (htimer : s.reconnectTimeout = false) :
    ∀ k, (handleReconnectIter s k).reconnectAttempts = s.reconnectAttempts
      ∧ (handleReconnectIter s k).maxReconnectAttempts = s.maxReconnectAttempts
      ∧ (handleReconnectIter s k).reconnectTimeout = false
      ∧ (1 ≤ k → (handleReconnectIter s k).failedToConnect = true) := by
  intro k
  induction k with
  | zero => exact ⟨rfl, rfl, htimer, by omega⟩
  | succ k ih =>
    obtain ⟨ha, hm, ht, _⟩ := ih
    have hsat2 : (handleReconnectIter s k).maxReconnectAttempts ≤
        (handleReconnectIter s k).reconnectAttempts := by
      rw [ha, hm]; exact hsat
    have hstep : handleReconnect (handleReconnectIter s k)
        = ({ handleReconnectIter s k with failedToConnect := true }, false) := by
      rw [handleReconnect, if_neg (by simp [ht]), if_pos hsat2]
    refine ⟨?_, ?_, ?_, fun _ => ?_⟩ <;>
      simp [handleReconnectIter, hstep, ha, hm, ht]

/-- C5.  Once the reconnect-attempt counter has reached the configured
maximum (and no timer is pending), every further `handleReconnect` request
schedules no connect attempt and keeps `failedToConnect` latched true; an
explicit `resetConnectionState` clears both the counter and the flag, after
which reconnect attempts are scheduled again. -/
theorem reconnect_saturation (s : ReconnectState)
    (hsat : s.maxReconnectAttempts ≤ s.reconnectAttempts)
    (htimer : s.reconnectTimeout = false) :
    (∀ k, (handleReconnect (handleReconnectIter s k)).2 = false)
    ∧ (∀ k, 1 ≤ k → (handleReconnectIter s k).failedToConnect = true)
    ∧ (resetConnectionState (handleReconnectIter s 1)).reconnectAttempts = 0
    ∧ (resetConnectionState (handleReconnectIter s 1)).failedToConnect = false
    ∧ (1 ≤ s.maxReconnectAttempts →
        (handleReconnect (resetConnectionState (handleReconnectIter s 1))).2 = true) := by
  have H := handleReconnectIter_saturated s hsat htimer
  refine ⟨?_, fun k hk => (H k).2.2.2 hk, rfl, rfl, ?_⟩
  · intro k
    obtain ⟨ha, hm, ht, _⟩ := H k
    have hsat2 : (handleReconnectIter s k).maxReconnectAttempts ≤
        (handleReconnectIter s k).reconnectAttempts := by
      rw [ha, hm]; exact hsat
    rw [handleReconnect, if_neg (by simp [ht]), if_pos hsat2]
  · intro hmax
    obtain ⟨_, hm, ht, _⟩ := H 1
    have hTimer : (resetConnectionState (handleReconnectIter s 1)).reconnectTimeout
        = false := ht
    have hAtt : (resetConnectionState (handleReconnectIter s 1)).reconnectAttempts = 0 := rfl
    have hMax : (resetConnectionState (handleReconnectIter s 1)).maxReconnectAttempts
        = s.maxReconnectAttempts := hm
    rw [handleReconnect, if_neg (by simp [hTimer]), if_neg (by omega)]

/-- Witness for C5: a manager with 5 attempts recorded out of 5 allowed
schedules no further connect attempt and shows the failed flag. -/
theorem reconnect_saturation_witness :
    (handleReconnect (handleReconnectIter ⟨false, 5, 5, false⟩ 1)).2 = false
    ∧ (handleReconnectIter ⟨false, 5, 5, false⟩ 1).failedToConnect = true := by
  have h := reconnect_saturation ⟨false, 5, 5, false⟩ (by decide) rfl
  exact ⟨h.1 1, h.2.1 1 (by decide)⟩

/-- C9 counterexample.  A stale `open` callback (captured id 1 against
current id 2) is not side-effect free: it terminates the manager's current
`ws` object and decrements the active-connection counter. -/
theorem wsOpenHandler_stale_changes_state :
    wsOpenHandler 1 ⟨2, 1, true, false, 0, false, true, 0, false⟩
      = ⟨2, 0, true, false, 0, false, true, 0, true⟩
    ∧ wsOpenHandler 1 ⟨2, 1, true, false, 0, false, true, 0, false⟩
      ≠ ⟨2, 1, true, false, 0, false, true, 0, false⟩ := by
  exact ⟨by decide, by decide⟩

/-- C9 (amended).  Stale close, error and message callbacks are dropped
without any state change (the message is also not processed); a stale open
callback, however, terminates the object currently stored in `this.ws` — the
manager's current connection — and decrements `activeConnectionCount`. -/
theorem ws_stale_callbacks (capturedId : ℕ) (s : WsConnState) (now : ℤ)
    (h : capturedId ≠ s.connectionId) :
    wsCloseHandler capturedId s now = s
    ∧ wsErrorHandler capturedId s = s
    ∧ wsMessageHandler capturedId s = (s, false)
    ∧ wsOpenHandler capturedId s
        = { s with currentWsTerminated := true,
                   activeConnectionCount := s.activeConnectionCount - 1 } := by
  refine ⟨?_, ?_, ?_, ?_⟩ <;>
    simp [wsCloseHandler, wsErrorHandler, wsMessageHandler, wsOpenHandler, h]

/-- Witness for the amended C9 at a concrete stale id and state. -/
theorem ws_stale_callbacks_witness :
    wsCloseHandler 1 ⟨2, 1, true, false, 0, false, true, 0, false⟩ 99
      = ⟨2, 1, true, false, 0, false, true, 0, false⟩
    ∧ wsMessageHandler 1 ⟨2, 1, true, false, 0, false, true, 0, false⟩
      = (⟨2, 1, true, false, 0, false, true, 0, false⟩, false) := by
  have h := ws_stale_callbacks 1 ⟨2, 1, true, false, 0, false, true, 0, false⟩ 99 (by decide)
  exact ⟨h.1, h.2.2.1⟩

theorem wsProcessBody_processedMessages (st : WsDedupState) (m : WsIncomingMsg) (t : ℤ) :
    (wsProcessBody st m t).1.processedMessages = st.processedMessages := by
  cases hts : wsTickerSymbol m <;>
    simp only [wsProcessBody, wsBackpackMatch, hts] <;>
    split_ifs <;> rfl

theorem wsProcessMessage_keys_mono (st : WsDedupState) (m : WsIncomingMsg) (t : ℤ)
    (k : String) (hk : k ∈ st.processedMessages.map Prod.fst) :
    k ∈ (wsProcessMessage st m t).1.processedMessages.map Prod.fst := by
  rw [wsProcessMessage]
  by_cases h1 : ¬m.hasData
  · rw [if_pos h1]
    exact hk
  · rw [if_neg h1]
    cases het : m.eventTime with
    | none =>
      simp only
      rw [wsProcessBody_processedMessages]
      exact hk
    | some et =>
      simp only
      by_cases h2 : messageId m et ∈ st.processedMessages.map Prod.fst
      · rw [if_pos h2]
        exact hk
      · rw [if_neg h2]
        rw [wsProcessBody_processedMessages]
        simp only [List.map_append, List.mem_append]
        exact Or.inl hk

theorem wsProcessMessage_delivered_key (st : WsDedupState) (m : WsIncomingMsg) (t : ℤ)
    (et : ℕ) (het : m.eventTime = some et) (p : WsPriceInfo)
    (hdel : (wsProcessMessage st m t).2 = some p) :
    messageId m et ∉ st.processedMessages.map Prod.fst
    ∧ messageId m et ∈ (wsProcessMessage st m t).1.processedMessages.map Prod.fst := by
  rw [wsProcessMessage] at hdel ⊢
  by_cases h1 : ¬m.hasData
  · rw [if_pos h1] at hdel
    exact absurd hdel (by simp)
  · rw [if_neg h1] at hdel ⊢
    rw [het] at hdel ⊢
    simp only at hdel ⊢
    by_cases h2 : messageId m et ∈ st.processedMessages.map Prod.fst
    · rw [if_pos h2] at hdel
      exact absurd hdel (by simp)
    · rw [if_neg h2] at hdel ⊢
      refine ⟨h2, ?_⟩
      rw [wsProcessBody_processedMessages]
      simp

theorem wsProcessAll_cons (st : WsDedupState) (m : WsIncomingMsg) (t : ℤ)
    (rest : List (WsIncomingMsg × ℤ)) :
    wsProcessAll st ((m, t) :: rest)
      = ((wsProcessAll (wsProcessMessage st m t).1 rest).1,
         (match (wsProcessMessage st m t).2 with
          | some p => [(m, p)]
          | none => []) ++ (wsProcessAll (wsProcessMessage st m t).1 rest).2) := rfl

theorem wsDeliveredEventIds_cons_none (st : WsDedupState) (m : WsIncomingMsg) (t : ℤ)
    (rest : List (WsIncomingMsg × ℤ)) (hout : (wsProcessMessage st m t).2 = none) :
    wsDeliveredEventIds st ((m, t) :: rest)
      = wsDeliveredEventIds (wsProcessMessage st m t).1 rest := by
  rw [wsDeliveredEventIds, wsDeliveredEventIds, wsProcessAll_cons, hout]
  rfl

theorem wsDeliveredEventIds_cons_some_noE (st : WsDedupState) (m : WsIncomingMsg) (t : ℤ)
    (rest : List (WsIncomingMsg × ℤ)) (p : WsPriceInfo)
    (hout : (wsProcessMessage st m t).2 = some p) (het : m.eventTime = none) :
    wsDeliveredEventIds st ((m, t) :: rest)
      = wsDeliveredEventIds (wsProcessMessage st m t).1 rest := by
  rw [wsDeliveredEventIds, wsDeliveredEventIds, wsProcessAll_cons, hout]
  simp [het]

theorem wsDeliveredEventIds_cons_some_E (st : WsDedupState) (m : WsIncomingMsg) (t : ℤ)
    (rest : List (WsIncomingMsg × ℤ)) (p : WsPriceInfo)
    (hout : (wsProcessMessage st m t).2 = some p) (et : ℕ)
    (het : m.eventTime = some et) :
    wsDeliveredEventIds st ((m, t) :: rest)
      = messageId m et :: wsDeliveredEventIds (wsProcessMessage st m t).1 rest := by
  rw [wsDeliveredEventIds, wsDeliveredEventIds, wsProcessAll_cons, hout]
  simp [het]

/-- C4.  For any batch of inbound stream messages processed between cleanup
sweeps, the server event identities (`e`, `s`, `E` key) of the messages
forwarded to subscribers contain no duplicate, and none of them was already
recorded in the dedup cache: a second message with the same identity is
silently dropped at the dedup gate. -/
theorem ws_dedup_no_double_delivery (st : WsDedupState) (ms : List (WsIncomingMsg × ℤ)) :
    (wsDeliveredEventIds st ms).Nodup
    ∧ ∀ k ∈ wsDeliveredEventIds st ms, k ∉ st.processedMessages.map Prod.fst := by
  induction ms generalizing st with
  | nil => simp [wsDeliveredEventIds, wsProcessAll]
  | cons mt rest ih =>
    obtain ⟨m, t⟩ := mt
    have hrest := ih (wsProcessMessage st m t).1
    cases hout : (wsProcessMessage st m t).2 with
    | none =>
      rw [wsDeliveredEventIds_cons_none st m t rest hout]
      refine ⟨hrest.1, fun k hk hkin => ?_⟩
      exact hrest.2 k hk (wsProcessMessage_keys_mono st m t k hkin)
    | some p =>
      cases het : m.eventTime with
      | none =>
        rw [wsDeliveredEventIds_cons_some_noE st m t rest p hout het]
        refine ⟨hrest.1, fun k hk hkin => ?_⟩
        exact hrest.2 k hk (wsProcessMessage_keys_mono st m t k hkin)
      | some et =>
        obtain ⟨hfresh, hrec⟩ := wsProcessMessage_delivered_key st m t et het p hout
        rw [wsDeliveredEventIds_cons_some_E st m t rest p hout et het]
        constructor
        · rw [List.nodup_cons]
          exact ⟨fun hmem => hrest.2 _ hmem hrec, hrest.1⟩
        · intro k hk
          rw [List.mem_cons] at hk
          rcases hk with rfl | hk
          · exact hfresh
          · intro hkin
            exact hrest.2 k hk (wsProcessMessage_keys_mono st m t k hkin)

theorem handleWebSocketPriceUpdate_noraw (st : PriceMonitorState) (symbol : String)
    (price : ℚ) (time now : ℤ) (hvalid : ¬(symbol = "" ∨ price ≤ 0)) :
    handleWebSocketPriceUpdate st symbol price none time now
      = if 0 < st.currentPrice ∧ price = st.currentPrice then
          if st.restartTime ≠ 0 ∧ now - st.restartTime < 5000 then
            if now - st.lastUpdateTime < 1000 then (st, none)
            else pmContinue st symbol price time now
          else
            if now - st.lastUpdateTime < 500 then (st, none)
            else pmContinue st symbol price time now
        else pmContinue st symbol price time now := by
  rw [handleWebSocketPriceUpdate, if_neg hvalid]

theorem pmContinue_first (st : PriceMonitorState) (symbol : String) (price : ℚ)
    (timeStamp now : ℤ) (hcold : st.currentPrice ≤ 0) (hp : 0 < price) :
    pmContinue st symbol price timeStamp now
      = ({ st with restartTime := now, lastPrice := st.currentPrice, currentPrice := price,
                   lastUpdateTime := timeStamp, priceSource := "WebSocket" },
         if timeStamp ≠ 0 ∧ now - timeStamp < 100 then none
         else some ⟨if symbol = "" then st.symbol else symbol, price, "WebSocket",
                    st.currentPrice⟩) := by
  rw [pmContinue]
  rw [if_pos (not_lt.mpr hcold), handlePriceUpdateM, if_neg (not_le.mpr hp)]
  split_ifs <;> rfl

/-- C6 counterexample.  From a cold start (no current price) a first price
update whose event timestamp equals the processing time is not delivered to
the subscriber: `handleWebSocketPriceUpdate` stores the price and then
`handlePriceUpdate` suppresses the delivery under its 100 ms gate, because
`lastUpdateTime` was set to the fresh timestamp just before the call —
refuting "the very first update always passes through immediately". -/
theorem first_update_not_delivered :
    (handleWebSocketPriceUpdate ⟨"SOL_USDC", 0, 0, 0, 0, "init", []⟩ "SOL_USDC" 100 none
        500000 500000).2 = none
    ∧ (handleWebSocketPriceUpdate ⟨"SOL_USDC", 0, 0, 0, 0, "init", []⟩ "SOL_USDC" 100 none
        500000 500000).1.currentPrice = 100 := by
  exact ⟨by decide, by decide⟩

/-- C6 (amended).  The unchanged-price throttle holds: a repeat of the
current price outside the post-restart window arriving within 500 ms of the
last update is suppressed with no state change.  A first update after a cold
start does bypass that throttle and immediately records the price and the
restart time, but it reaches the subscriber only when its timestamp is
either zero or at least 100 ms older than the processing time — a first
update bearing a fresh timestamp is not delivered. -/
theorem priceMonitor_throttle (st : PriceMonitorState) (symbol : String) (price : ℚ)
    (time now : ℤ) (hsym : symbol ≠ "") (hp : 0 < price) :
    (price = st.currentPrice → 0 < st.currentPrice → st.restartTime = 0 →
      now - st.lastUpdateTime < 500 →
      handleWebSocketPriceUpdate st symbol price none time now = (st, none))
    ∧ (st.currentPrice ≤ 0 →
        ((handleWebSocketPriceUpdate st symbol price none time now).1.currentPrice = price
         ∧ (handleWebSocketPriceUpdate st symbol price none time now).1.restartTime = now
         ∧ ((handleWebSocketPriceUpdate st symbol price none time now).2.isSome
              ↔ (time = 0 ∨ 100 ≤ now - time)))) := by
  have hvalid : ¬(symbol = "" ∨ price ≤ 0) := by
    push_neg
    exact ⟨hsym, hp⟩
  constructor
  · intro hsame hpos hrestart hthrottle
    rw [handleWebSocketPriceUpdate_noraw st symbol price time now hvalid,
      if_pos ⟨hpos, hsame⟩, if_neg (by simp [hrestart]), if_pos hthrottle]
  · intro hcold
    have hnots : ¬(0 < st.currentPrice ∧ price = st.currentPrice) := by
      intro h
      linarith [h.1]
    rw [handleWebSocketPriceUpdate_noraw st symbol price time now hvalid, if_neg hnots,
      pmContinue_first st symbol price time now hcold hp]
    refine ⟨rfl, rfl, ?_⟩
    by_cases hc : time ≠ 0 ∧ now - time < 100
    · rw [if_pos hc]
      simp only [Option.isSome_none, Bool.false_eq_true, false_iff]
      omega
    · rw [if_neg hc]
      simp only [Option.isSome_some, true_iff]
      omega

/-- Witness for the amended C6: a repeated unchanged price 100 ms after the
previous update is suppressed, and a cold-start first update records the
price. -/
theorem priceMonitor_throttle_witness :
    handleWebSocketPriceUpdate ⟨"SOL_USDC", 100, 0, 400900, 0, "ws", []⟩ "SOL_USDC" 100 none
        401000 401000 = (⟨"SOL_USDC", 100, 0, 400900, 0, "ws", []⟩, none)
    ∧ (handleWebSocketPriceUpdate ⟨"SOL_USDC", 0, 0, 0, 0, "init", []⟩ "SOL_USDC" 100 none
        500000 500000).1.restartTime = 500000 := by
  have h1 := (priceMonitor_throttle ⟨"SOL_USDC", 100, 0, 400900, 0, "ws", []⟩ "SOL_USDC" 100
    401000 401000 (by decide) (by decide)).1 rfl (by decide) rfl (by decide)
  have h2 := (priceMonitor_throttle ⟨"SOL_USDC", 0, 0, 0, 0, "init", []⟩ "SOL_USDC" 100
    500000 500000 (by decide) (by decide)).2 (by decide)
  exact ⟨h1, h2.2.1⟩

/-- C7 counterexample.  In a tick where every position query fails, a
position recorded from an earlier successful query (LONG, entry 100) plus a
current price of 101 still drives the take-profit branch: the monitoring
tick closes the position and cancels open orders — order cancellation is not
skipped, refuting the claim for the monitoring path.  (Order creation is
still gated: `executeTrade` inside the branch returns no actions.) -/
theorem monitoring_cancels_on_failed_query :
    (monitoringTick ⟨true, true, 1, 100, 0, "LONG", false, none⟩
        ⟨none, some 101, 0, 0, false, 3, true, 0, 1 / 2⟩ 0 1000 60000).2.1
      = [TradeAction.closePosition, TradeAction.cancelOrders] := by
  norm_num [monitoringTick, getPositionInfo, calculateProfitPercentage, executeTrade]

/-- C7 (amended).  When every position query of a tick fails: the direct
trade-execution path (`executeTrade`) performs no order actions at all; the
monitoring tick never creates orders (its embedded `executeTrade` re-checks
the gate); and when no position is recorded from before, the monitoring tick
performs no order actions either — but a stale recorded position can still
lead the take-profit branch to close the position and cancel orders. -/
theorem risk_gate_failed_query (s : FuturesAppState) (env : TickEnv)
    (lastCheck now noFill : ℤ) (hfail : env.positions = none) :
    (executeTrade s env).2 = []
    ∧ TradeAction.createOrder ∉ (monitoringTick s env lastCheck now noFill).2.1
    ∧ (s.hasOpenPosition = false →
        (monitoringTick s env lastCheck now noFill).2.1 = []) := by
  have hexec : ∀ s' : FuturesAppState, (executeTrade s' env).2 = [] := by
    intro s'
    rw [executeTrade, hfail]
    cases hm : env.marketPrice with
    | none => rfl
    | some p =>
      by_cases hage : 60000 < env.priceDataAgeMs
      · simp only [if_pos hage]
      · simp only [if_neg hage]
        rfl
  have hs1 : getPositionInfo s none = { s with canFetchPositions := false } := rfl
  have hmon : (monitoringTick s env lastCheck now noFill).2.1 = []
      ∨ (monitoringTick s env lastCheck now noFill).2.1
          = [TradeAction.closePosition, TradeAction.cancelOrders] := by
    simp only [monitoringTick, hfail, hs1]
    split
    · split
      · exact Or.inl rfl
      · split
        · split
          · exact Or.inr rfl
          · right
            rw [hexec]
            rfl
        · exact Or.inl rfl
    · split
      · split
        · exact Or.inl rfl
        · next hcf =>
            exfalso
            exact hcf (by simp)
      · exact Or.inl rfl
  refine ⟨hexec s, ?_, ?_⟩
  · rcases hmon with h | h <;> rw [h] <;> decide
  · intro hno
    simp only [monitoringTick, hfail, hs1]
    have hA : ¬(({ s with canFetchPositions := false } : FuturesAppState).hasOpenPosition
        ∧ ¬({ s with canFetchPositions := false } : FuturesAppState).takeProfitTriggered) := by
      simp [hno]
    rw [if_neg hA]
    by_cases hB : noFill < now - lastCheck
    · rw [if_pos hB, if_pos (by simp)]
    · rw [if_neg hB]

/-- Witness for the amended C7 at a concrete state and failing environment. -/
theorem risk_gate_failed_query_witness :
    (executeTrade ⟨true, false, 0, 0, 0, "LONG", false, none⟩
        ⟨none, some 101, 0, 0, false, 3, true, 0, 1 / 2⟩).2 = []
    ∧ (monitoringTick ⟨true, false, 0, 0, 0, "LONG", false, none⟩
        ⟨none, some 101, 0, 0, false, 3, true, 0, 1 / 2⟩ 0 1000000 60000).2.1 = [] := by
  have h := risk_gate_failed_query ⟨true, false, 0, 0, 0, "LONG", false, none⟩
    ⟨none, some 101, 0, 0, false, 3, true, 0, 1 / 2⟩ 0 1000000 60000 rfl
  exact ⟨h.1, h.2.2 rfl⟩
